import Mathlib

/-!
Shallow embedding of the fake-news-detection backend
(github.com/Naman30903/Final-Year-Project): request validation, URL
scraping and HTML text extraction, the ML prediction client, the
in-memory prediction repository, and the news-analysis orchestration
service, together with theorems checking the specification's claims.

Go strings are modelled as `List Char` (one entry per rune).  External
boundaries (the HTTP transport, `net/url.Parse`, JSON decoding, the
system clock, UUID generation, goquery's HTML parsing) are passed in as
explicit parameters; everything the repository's own code does is
translated directly from the source.
-/

set_option autoImplicit false

namespace FYP

/-- Go strings, modelled rune-by-rune. -/
abbrev Str := List Char

/-- Go's `unicode.IsSpace`: the Unicode White_Space property
(as listed in the Go standard library's tables). -/
def goIsSpace (c : Char) : Bool :=
  c.toNat = 9 || c.toNat = 10 || c.toNat = 11 || c.toNat = 12 || c.toNat = 13 ||
  c.toNat = 32 || c.toNat = 0x85 || c.toNat = 0xA0 || c.toNat = 0x1680 ||
  (0x2000 ≤ c.toNat && c.toNat ≤ 0x200A) ||
  c.toNat = 0x2028 || c.toNat = 0x2029 || c.toNat = 0x202F ||
  c.toNat = 0x205F || c.toNat = 0x3000

/-- Model of `unicode.ToLower` restricted to the mappings that can land in ASCII:
the ASCII letters themselves plus U+0130 (İ → i) and U+212A (KELVIN SIGN → k).
All other simple lowercase mappings stay outside ASCII and can never help a
match against the ASCII-only tag patterns searched below. -/
def goToLowerChar (c : Char) : Char :=
  if 65 ≤ c.toNat ∧ c.toNat ≤ 90 then Char.ofNat (c.toNat + 32)
  else if c.toNat = 0x130 then 'i'
  else if c.toNat = 0x212A then 'k'
  else c

/-- Model of `strings.ToLower`. -/
def toLowerStr (s : Str) : Str := s.map goToLowerChar

/-- Model of `strings.Index pattern`: index of the first occurrence of `p` in `s`,
`none` when absent (Go returns -1).  Indices count runes; the patterns
searched in this development are ASCII, where rune and byte offsets agree. -/
def indexOfStr (p : Str) : Str → Option Nat
  | [] => if p = [] then some 0 else none
  | c :: tl =>
    if p.isPrefixOf (c :: tl) then some 0
    else (indexOfStr p tl).map (· + 1)

/-- One accumulated field of `strings.Fields`, see `fieldsGo`. -/
def fieldsAux : Str → Str → List Str
  | [], acc => if acc = [] then [] else [acc.reverse]
  | c :: rest, acc =>
    if goIsSpace c then
      if acc = [] then fieldsAux rest [] else acc.reverse :: fieldsAux rest []
    else fieldsAux rest (c :: acc)

/-- Model of `strings.Fields`: split around runs of `unicode.IsSpace` characters,
dropping empty pieces. -/
def fieldsGo (s : Str) : List Str := fieldsAux s []

/-- Model of `strings.Join l " "`. -/
def joinSpace : List Str → Str
  | [] => []
  | [f] => f
  | f :: g :: rest => f ++ (' ' :: joinSpace (g :: rest))

/-- Model of `strings.TrimSpace`. -/
def trimSpaceGo (s : Str) : Str :=
  ((s.dropWhile goIsSpace).reverse.dropWhile goIsSpace).reverse

/-- True when the first character (if any) is not whitespace. -/
def headNotSpace : Str → Bool
  | [] => true
  | c :: _ => !goIsSpace c

/-- True when the last character (if any) is not whitespace. -/
def lastNotSpace (s : Str) : Bool := headNotSpace s.reverse

/-- True when no two consecutive characters are both whitespace. -/
def adjacentOk : Str → Bool
  | [] => true
  | [_] => true
  | a :: b :: rest => !(goIsSpace a && goIsSpace b) && adjacentOk (b :: rest)

/-! ## Domain model (internal/domain) -/

/-- The classified errors of `internal/domain/errors.go` together with the
repository's own error strings, keeping the context each `fmt.Errorf` wrap
attaches (status codes, causes) so that `errors.Is`-style classification is
preserved. -/
inductive GoError where
  /-- Model of `ErrInvalidRequestType` -/
  | invalidRequestType
  /-- Model of `ErrEmptyContent` -/
  | emptyContent
  /-- Model of `ErrInvalidURL` -/
  | invalidURL
  /-- Model of `ErrURLScrapingFailed` wrapped with a transport cause -/
  | scrapeTransport (cause : Str)
  /-- Model of `ErrURLScrapingFailed` wrapped with "status code %d" -/
  | scrapeStatus (code : Nat)
  /-- Model of `ErrURLScrapingFailed` wrapped with "no content extracted" -/
  | scrapeNoContent
  /-- Model of `ErrMLServiceUnavailable` wrapped with the transport cause -/
  | mlServiceUnavailable (cause : Str)
  /-- Model of `ErrPredictionFailed` wrapped with "status %d" -/
  | predictionFailed (status : Nat)
  /-- repository: "prediction ID cannot be empty" -/
  | predictionIdEmpty
  /-- repository: "prediction not found with id: %s" -/
  | predictionNotFound (id : Str)
  deriving Repr, DecidableEq

/-- Model of `domain.Prediction` (internal/domain).  `Confidence` is a `float64`
pass-through from the delegate; it is modelled as a rational since no
arithmetic is ever performed on it.  `CreatedAt` is an abstract timestamp. -/
structure Prediction where
  id : Str
  articleId : Str
  requestType : Str
  originalContent : Str
  result : Str
  confidence : Rat
  modelVersion : Str
  processingTime : Int
  createdAt : Nat
  deriving Repr, DecidableEq

/-- Model of `domain.AnalysisRequest`. -/
structure AnalysisRequest where
  type : Str
  content : Str
  deriving Repr, DecidableEq

/-- Model of `AnalysisRequest.Validate`: type must be "text" or "url", content
non-empty; `none` means a nil error. -/
def AnalysisRequest.Validate (r : AnalysisRequest) : Option GoError :=
  if r.type ≠ "text".data ∧ r.type ≠ "url".data then some .invalidRequestType
  else if r.content = [] then some .emptyContent
  else none

/-! ## ML client (internal/service/ml_client.go) -/

/-- Model of `MLPredictionResponse`: the delegate's JSON payload shape. -/
structure MLPredictionResponse where
  result : Str
  confidence : Rat
  modelVersion : Str
  deriving Repr, DecidableEq

/-- The Go zero value of `MLPredictionResponse`, which is what
`var mlResp MLPredictionResponse` starts from. -/
def zeroMLResponse : MLPredictionResponse := ⟨[], 0, []⟩

/-- An HTTP response as seen by the client after the body has been read. -/
structure HttpResponse where
  statusCode : Nat
  body : Str
  deriving Repr, DecidableEq

/-- Model of `MLClient.Predict` (internal/service/ml_client.go).  The HTTP round
trip is the boundary parameter `doPost` (transport failure or a response);
`decode` models `encoding/json.Unmarshal` into `MLPredictionResponse`
(`none` on parse failure); `elapsedMs` is the measured wall-clock duration
and `now` the `time.Now()` at completion.  Note the source discards the
`json.Unmarshal` error, so a parse failure leaves the zero value in
`mlResp` and still produces a nil-error result. -/
def MLClient.Predict (doPost : Str → Except Str HttpResponse)
    (decode : Str → Option MLPredictionResponse)
    (elapsedMs : Int) (now : Nat) (text : Str) : Except GoError Prediction :=
  match doPost text with
  | .error cause => .error (.mlServiceUnavailable cause)
  | .ok resp =>
    if resp.statusCode ≠ 200 then
      .error (.predictionFailed resp.statusCode)
    else
      let mlResp := (decode resp.body).getD zeroMLResponse
      .ok { id := [], articleId := [], requestType := [], originalContent := [],
            result := mlResp.result, confidence := mlResp.confidence,
            modelVersion := mlResp.modelVersion, processingTime := elapsedMs,
            createdAt := now }

/-! ## Scraper service (internal/service/scraper_service.go) -/

/-- The pieces of a parsed URL that `isValidURL` inspects. -/
structure UrlParts where
  scheme : Str
  host : Str
  deriving Repr, DecidableEq

/-- Model of `ScraperService.isValidURL`: `net/url.Parse` is the boundary parameter
`parse` (`none` models a parse error); the scheme must be http or https and
the host non-empty. -/
def isValidURL (parse : Str → Option UrlParts) (urlStr : Str) : Bool :=
  match parse urlStr with
  | none => false
  | some u =>
    if u.scheme ≠ "http".data ∧ u.scheme ≠ "https".data then false
    else if u.host = [] then false
    else true

/-- One pass of `removeTagsWithContent`'s loop body, fuelled: each source
iteration removes at least `len("</" + tag + ">")` ≥ 3 characters (the end
tag cannot occur at the position where the start tag just matched), so
`html.length + 1` units of fuel always cover the source's unbounded loop. -/
def removeTagsFuel (tag : Str) : Nat → Str → Str
  | 0, html => html
  | fuel + 1, html =>
    let startTag := '<' :: tag
    let endTag := '<' :: '/' :: (tag ++ ['>'])
    match indexOfStr startTag (toLowerStr html) with
    | none => html
    | some start =>
      match indexOfStr endTag (toLowerStr (html.drop start)) with
      | none => html
      | some e =>
        removeTagsFuel tag fuel
          (html.take start ++ html.drop (start + e + endTag.length))

/-- Model of `removeTagsWithContent` (scraper_service.go): repeatedly delete the
first case-insensitive `<tag ... </tag>` span until none remains. -/
def removeTagsWithContent (html tag : Str) : Str :=
  removeTagsFuel tag (html.length + 1) html

/-- The tag-stripping loop of `extractTextFromHTML`: a `<` enters tag mode
and emits a space, a `>` leaves tag mode and emits nothing, characters
outside tag mode are kept. -/
def stripTags : Str → Bool → Str
  | [], _ => []
  | c :: rest, inTag =>
    if c = '<' then ' ' :: stripTags rest true
    else if c = '>' then stripTags rest false
    else if inTag then stripTags rest true
    else c :: stripTags rest inTag

/-- Model of `ScraperService.extractTextFromHTML`: drop script and style elements
with their content, strip the remaining tags, then collapse whitespace
(`strings.Join (strings.Fields text) " "`) and trim. -/
def extractTextFromHTML (html : Str) : Str :=
  let h1 := removeTagsWithContent html "script".data
  let h2 := removeTagsWithContent h1 "style".data
  let text := stripTags h2 false
  trimSpaceGo (joinSpace (fieldsGo text))

/-- Model of `ScraperService.ScrapeURL`: validate the URL, fetch it (`fetch` models
the HTTP GET including the body read — a transport or read failure is its
`error` case), reject a non-200 status, extract text, and reject an empty
extraction. -/
def ScrapeURL (parse : Str → Option UrlParts)
    (fetch : Str → Except Str HttpResponse) (urlStr : Str) :
    Except GoError Str :=
  if ¬ isValidURL parse urlStr then .error .invalidURL
  else
    match fetch urlStr with
    | .error cause => .error (.scrapeTransport cause)
    | .ok resp =>
      if resp.statusCode ≠ 200 then .error (.scrapeStatus resp.statusCode)
      else
        let content := extractTextFromHTML resp.body
        if content = [] then .error .scrapeNoContent
        else .ok content

/-! ## In-memory prediction repository (internal/repository/memory) -/

/-- The repository's backing `map[string]*domain.Prediction`, modelled as
an association list with at most one entry per key (inserts replace). -/
abbrev PredMap := List (Str × Prediction)

/-- Go map indexing `m[id]`. -/
def mapLookup (id : Str) : PredMap → Option Prediction
  | [] => none
  | (k, v) :: rest => if k = id then some v else mapLookup id rest

/-- Go map assignment `m[id] = p` (replaces any existing entry). -/
def mapInsert (id : Str) (p : Prediction) : PredMap → PredMap
  | [] => [(id, p)]
  | (k, v) :: rest =>
    if k = id then (id, p) :: rest else (k, v) :: mapInsert id p rest

/-- Model of `PredictionRepository.SavePrediction`: reject an empty id, otherwise
store under the id.  Returns the nil-or-error result with the updated
repository state. -/
def SavePrediction (p : Prediction) (st : PredMap) :
    Except GoError Unit × PredMap :=
  if p.id = [] then (.error .predictionIdEmpty, st)
  else (.ok (), mapInsert p.id p st)

/-- Model of `PredictionRepository.GetPredictionByID`. -/
def GetPredictionByID (id : Str) (st : PredMap) : Except GoError Prediction :=
  match mapLookup id st with
  | none => .error (.predictionNotFound id)
  | some p => .ok p

/-! ## News service (internal/service/news_service.go) -/

/-- The `NewsRepository` interface as used by `NewsService`, over an
abstract state type so that non-memory implementations (in particular ones
whose `SavePrediction` fails) can instantiate it. -/
structure RepoOps (σ : Type) where
  savePrediction : Prediction → σ → Except GoError Unit × σ
  getPredictionByID : Str → σ → Except GoError Prediction

/-- The in-memory repository as a `RepoOps`. -/
def memRepo : RepoOps PredMap :=
  { savePrediction := SavePrediction
    getPredictionByID := GetPredictionByID }

/-- The collaborators and ambient values `NewsService.AnalyzeNews` draws
on: the scraper, the ML client (already applied to its own boundary
parameters), the fresh `uuid.New().String()` and the `time.Now()` used for
enrichment. -/
structure Effects where
  scrape : Str → Except GoError Str
  predict : Str → Except GoError Prediction
  freshId : Str
  now : Nat

/-- Trace entries recording which collaborators an `AnalyzeNews` run
invoked, in order. -/
inductive CallEvent where
  | scrapeCall (url : Str)
  | predictCall (text : Str)
  | saveCall (p : Prediction)
  deriving Repr, DecidableEq

/-- The tail of `AnalyzeNews` after the text content has been obtained:
predict, enrich with id/request metadata/timestamp, then save — a save
failure is only logged and never changes the returned value. -/
def analyzeTail {σ : Type} (repo : RepoOps σ) (eff : Effects)
    (req : AnalysisRequest) (textContent : Str) (st : σ)
    (trace : List CallEvent) :
    (Except GoError Prediction × σ) × List CallEvent :=
  match eff.predict textContent with
  | .error e => ((.error e, st), trace ++ [.predictCall textContent])
  | .ok p0 =>
    let p := { p0 with id := eff.freshId, requestType := req.type,
                       originalContent := req.content, createdAt := eff.now }
    let saved := repo.savePrediction p st
    ((.ok p, saved.2), trace ++ [.predictCall textContent, .saveCall p])

/-- Model of `NewsService.AnalyzeNews`: validate, branch on the request type (text
verbatim, url through the scraper, a defensive default for any other
type), predict, enrich, best-effort save.  Returns the Go result together
with the repository state and the call trace. -/
def AnalyzeNews {σ : Type} (repo : RepoOps σ) (eff : Effects)
    (req : AnalysisRequest) (st : σ) :
    (Except GoError Prediction × σ) × List CallEvent :=
  match req.Validate with
  | some e => ((.error e, st), [])
  | none =>
    if req.type = "text".data then
      analyzeTail repo eff req req.content st []
    else if req.type = "url".data then
      match eff.scrape req.content with
      | .error e => ((.error e, st), [.scrapeCall req.content])
      | .ok textContent =>
        analyzeTail repo eff req textContent st [.scrapeCall req.content]
    else ((.error .invalidRequestType, st), [])

/-- Model of `NewsService.GetPrediction`. -/
def NewsService.GetPrediction {σ : Type} (repo : RepoOps σ) (id : Str)
    (st : σ) : Except GoError Prediction :=
  repo.getPredictionByID id st

/-- The enrichment `AnalyzeNews` applies to a successful delegate result
before saving and returning it. -/
def enrich (eff : Effects) (req : AnalysisRequest) (p0 : Prediction) :
    Prediction :=
  { p0 with id := eff.freshId, requestType := req.type,
            originalContent := req.content, createdAt := eff.now }

/-! ## Goquery-based scraper (backend/internal/service/scraper_service.go)

`extractContentWithGoquery` is embedded at the DOM level: goquery's
parsing of the fetched bytes into a node tree is the external boundary, so
the function takes the already-parsed document (a forest of nodes).  The
goquery operations the source uses — `Find` with the listed selectors,
`Remove`, `Text`, document-order traversal — are modelled per their
documented semantics. -/

/-- A parsed HTML node: a text node, or an element with tag, attributes
and children. -/
inductive HtmlNode where
  | text (s : Str) : HtmlNode
  | elem (tag : Str) (attrs : List (Str × Str)) (children : List HtmlNode) : HtmlNode
  deriving Repr

mutual

/-- goquery `Selection.Text` of a single node: concatenation of all
descendant text, in document order. -/
def nodeText : HtmlNode → Str
  | .text s => s
  | .elem _ _ cs => forestText cs

/-- Model of `nodeText` over a forest. -/
def forestText : List HtmlNode → Str
  | [] => []
  | n :: ns => nodeText n ++ forestText ns

end

/-- The tags removed by
`doc.Find("script, style, nav, header, footer, aside, form, iframe, noscript").Remove()`. -/
def unwantedTags : List Str :=
  ["script".data, "style".data, "nav".data, "header".data, "footer".data,
   "aside".data, "form".data, "iframe".data, "noscript".data]

mutual

/-- Model of `Remove()` of the unwanted elements applied to one node: the node is
dropped entirely when its tag is unwanted, otherwise its children are
cleaned recursively. -/
def removeUnwanted : HtmlNode → List HtmlNode
  | .text s => [.text s]
  | .elem t a cs =>
    if t ∈ unwantedTags then [] else [.elem t a (removeUnwantedForest cs)]

/-- Model of `removeUnwanted` over a forest. -/
def removeUnwantedForest : List HtmlNode → List HtmlNode
  | [] => []
  | n :: ns => removeUnwanted n ++ removeUnwantedForest ns

end

mutual

/-- All nodes of a subtree, self first, in document (pre-)order. -/
def selfAndDescendants : HtmlNode → List HtmlNode
  | .text s => [.text s]
  | .elem t a cs => .elem t a cs :: forestNodes cs

/-- All nodes of a forest in document order. -/
def forestNodes : List HtmlNode → List HtmlNode
  | [] => []
  | n :: ns => selfAndDescendants n ++ forestNodes ns

end

/-- The proper descendants of a node (what a goquery `Selection.Find`
searches), in document order. -/
def properDescendants : HtmlNode → List HtmlNode
  | .text _ => []
  | .elem _ _ cs => forestNodes cs

/-- The CSS selector forms appearing in `articleSelectors`. -/
inductive Selector where
  /-- a tag name such as `article` -/
  | tag (t : Str)
  /-- an attribute-equality selector such as `[role='main']` -/
  | attrEq (name value : Str)
  /-- a class selector such as `.article-content` -/
  | cls (c : Str)
  /-- an id selector such as `#content` -/
  | idSel (i : Str)
  deriving Repr, DecidableEq

/-- Attribute lookup on an element's attribute list (first match). -/
def attrValue (name : Str) : List (Str × Str) → Option Str
  | [] => none
  | (k, v) :: rest => if k = name then some v else attrValue name rest

/-- Class-attribute membership: the `class` attribute is split on
whitespace and each piece is a class name. -/
def hasClass (attrs : List (Str × Str)) (c : Str) : Bool :=
  match attrValue "class".data attrs with
  | none => false
  | some v => (fieldsGo v).contains c

/-- Whether a node matches one selector. -/
def matchesSelector (sel : Selector) : HtmlNode → Bool
  | .text _ => false
  | .elem t attrs _ =>
    match sel with
    | .tag tg => t = tg
    | .attrEq n v => attrValue n attrs = some v
    | .cls c => hasClass attrs c
    | .idSel i => attrValue "id".data attrs = some i

/-- Model of `doc.Find(sel)`: every element of the document matching `sel`, in
document order. -/
def docFind (doc : List HtmlNode) (sel : Selector) : List HtmlNode :=
  (forestNodes doc).filter (matchesSelector sel)

/-- The prioritized content-container selector list of
`extractContentWithGoquery`. -/
def articleSelectors : List Selector :=
  [ .tag "article".data,
    .attrEq "role".data "main".data,
    .cls "article-content".data,
    .cls "post-content".data,
    .cls "entry-content".data,
    .cls "content".data,
    .tag "main".data,
    .idSel "content".data,
    .cls "story-body".data,
    .cls "article-body".data ]

/-- The inner multi-selector `"p, h1, h2, h3, h4, h5, h6, li"`. -/
def isContentElem : HtmlNode → Bool
  | .text _ => false
  | .elem t _ _ =>
    t = "p".data || t = "h1".data || t = "h2".data || t = "h3".data ||
    t = "h4".data || t = "h5".data || t = "h6".data || t = "li".data

/-- UTF-8 byte length of one rune (Go `len` counts bytes). -/
def utf8CharLen (c : Char) : Nat :=
  if c.toNat < 0x80 then 1
  else if c.toNat < 0x800 then 2
  else if c.toNat < 0x10000 then 3
  else 4

/-- Go `len` of a string: its UTF-8 byte count. -/
def utf8Len (s : Str) : Nat := (s.map utf8CharLen).sum

/-- The nonempty trimmed texts appended for one selector: for each match
(document order), each paragraph/heading/list-item descendant's trimmed
text when nonempty. -/
def piecesForSelector (doc : List HtmlNode) (sel : Selector) : List Str :=
  ((docFind doc sel).map fun m =>
    (((properDescendants m).filter isContentElem).map fun e =>
        trimSpaceGo (nodeText e)).filter (· ≠ [])).flatten

/-- The loop over `articleSelectors`: the first selector whose pass
appended any content wins (`foundContent` breaks the loop). -/
def selectorPieces (doc : List HtmlNode) : List Selector → List Str
  | [] => []
  | sel :: rest =>
    let ps := piecesForSelector doc sel
    if ps = [] then selectorPieces doc rest else ps

/-- The fallback: all paragraphs whose trimmed text is nonempty and longer
than 50 bytes. -/
def fallbackPieces (doc : List HtmlNode) : List Str :=
  ((docFind doc (.tag "p".data)).map fun e => trimSpaceGo (nodeText e)).filter
    fun t => decide (t ≠ []) && decide (50 < utf8Len t)

/-- Model of `ScraperService.extractContentWithGoquery`, over the parsed document:
remove the unwanted elements, run the selector loop (falling back to long
paragraphs), join the pieces with trailing spaces as the string builder
does, then collapse whitespace and trim. -/
def extractContentWithGoquery (doc : List HtmlNode) : Str :=
  let cleaned := removeUnwantedForest doc
  let ps := selectorPieces cleaned articleSelectors
  let pieces := if ps = [] then fallbackPieces cleaned else ps
  let contentStr := (pieces.map fun t => t ++ [' ']).flatten
  trimSpaceGo (joinSpace (fieldsGo contentStr))

/-! ## Concrete fixtures used by witnesses and counterexamples -/

/-- Substring test (via `indexOfStr`), used to state inclusion/exclusion
of text fragments in extraction results. -/
def containsSub (needle hay : Str) : Bool := (indexOfStr needle hay).isSome

/-- The concrete HTML document of the extraction claim, as the raw string
the basic extractor receives. -/
def c6html : Str :=
  "<article><p>Hello world, this is content.</p></article><nav>Home About Contact</nav>".data

/-- The boilerplate text inside the nav element of `c6html`. -/
def c6navText : Str := "Home About Contact".data

/-- The article paragraph text of `c6html`. -/
def c6articleText : Str := "Hello world, this is content.".data

/-- The concrete document of the extraction claim as the parsed DOM the
goquery-based extractor receives. -/
def c6doc : List HtmlNode :=
  [ .elem "html".data [] [
      .elem "body".data [] [
        .elem "article".data []
          [ .elem "p".data [] [ .text c6articleText ] ],
        .elem "nav".data [] [ .text c6navText ] ] ] ]

/-- A concrete instantiation of the `net/url.Parse` boundary recognizing
one well-formed http URL. -/
def parse0 : Str → Option UrlParts := fun s =>
  if s = "http://example.com".data then
    some ⟨"http".data, "example.com".data⟩
  else none

/-- A page body whose extraction is nonempty. -/
def body0 : Str := "<p>This page has real extractable content.</p>".data

/-- A fetch boundary answering every GET with HTTP 201 and `body0`: a
success-class status that is not 200. -/
def fetch201 : Str → Except Str HttpResponse := fun _ => .ok ⟨201, body0⟩

/-- A fetch boundary answering every GET with HTTP 200 and `body0`. -/
def fetch200 : Str → Except Str HttpResponse := fun _ => .ok ⟨200, body0⟩

/-- A delegate POST boundary answering HTTP 200 with an unparsable body. -/
def doPostBad : Str → Except Str HttpResponse :=
  fun _ => .ok ⟨200, "if only this were JSON".data⟩

/-- A delegate POST boundary answering HTTP 500. -/
def doPost500 : Str → Except Str HttpResponse :=
  fun _ => .ok ⟨500, "internal error".data⟩

/-- A delegate POST boundary answering HTTP 200 with a well-formed body. -/
def doPostGood : Str → Except Str HttpResponse :=
  fun _ => .ok ⟨200, "well-formed response".data⟩

/-- A JSON decode boundary that fails on every body. -/
def decodeNone : Str → Option MLPredictionResponse := fun _ => none

/-- A JSON decode boundary that succeeds on every body with a fixed
well-formed payload. -/
def decodeGood : Str → Option MLPredictionResponse :=
  fun _ => some ⟨"FAKE".data, 92 / 100, "v1".data⟩

/-- The delegate result `decodeGood` induces through a 200 response,
before enrichment. -/
def basePrediction : Prediction :=
  { id := [], articleId := [], requestType := [], originalContent := [],
    result := "FAKE".data, confidence := 92 / 100, modelVersion := "v1".data,
    processingTime := 5, createdAt := 0 }

/-- A prediction effect returning `basePrediction` for every text. -/
def predictGood : Str → Except GoError Prediction := fun _ => .ok basePrediction

/-- A scrape effect that always fails; used where the scraper must not be
reached. -/
def scrapeFail : Str → Except GoError Str := fun _ => .error .scrapeNoContent

/-- Concrete effects: always-succeeding delegate, fresh id "id-1",
timestamp 7. -/
def effGood : Effects :=
  { scrape := scrapeFail, predict := predictGood,
    freshId := "id-1".data, now := 7 }

/-- A repository whose save always fails (state `Unit`), exercising the
log-and-continue path. -/
def failingRepo : RepoOps Unit :=
  { savePrediction := fun _ st => (.error .predictionIdEmpty, st)
    getPredictionByID := fun id _ => .error (.predictionNotFound id) }

/-- A concrete valid text request. -/
def reqText : AnalysisRequest := ⟨"text".data, "Some breaking news item.".data⟩

/-! ## Helper lemmas -/

/-- Looking a key up right after inserting it yields the inserted value,
whatever the map previously held under that key. -/
theorem mapLookup_mapInsert_self (id : Str) (p : Prediction) (m : PredMap) :
    mapLookup id (mapInsert id p m) = some p := by
  induction m with
  | nil => simp [mapInsert, mapLookup]
  | cons kv rest ih =>
    obtain ⟨k, v⟩ := kv
    by_cases hk : k = id
    · simp [mapInsert, hk, mapLookup]
    · simp [mapInsert, hk, mapLookup, ih]

/-- Full characterization of a successful `AnalyzeNews` run: when
validation passes, the text content resolves (verbatim for a text request,
through the scraper for a url request) and the delegate succeeds, the run
returns the enriched prediction, threads the state through the save, and
records the expected calls. -/
theorem analyzeNews_success_state {σ : Type} (repo : RepoOps σ) (eff : Effects)
    (req : AnalysisRequest) (st : σ) (tc : Str) (p0 : Prediction)
    (hv : req.Validate = none)
    (htc : req.type = "text".data ∧ tc = req.content ∨
           req.type = "url".data ∧ eff.scrape req.content = .ok tc)
    (hp : eff.predict tc = .ok p0) :
    AnalyzeNews repo eff req st =
      ((.ok (enrich eff req p0),
        (repo.savePrediction (enrich eff req p0) st).2),
       (if req.type = "text".data then [] else [.scrapeCall req.content]) ++
         [.predictCall tc, .saveCall (enrich eff req p0)]) := by
  rcases htc with ⟨ht, htc⟩ | ⟨ht, hs⟩
  · subst htc
    simp [AnalyzeNews, hv, ht, analyzeTail, hp, enrich]
  · have hne : req.type ≠ "text".data := by rw [ht]; decide
    simp [AnalyzeNews, hv, ht, hne, hs, analyzeTail, hp, enrich]

/-- Characterization of an `AnalyzeNews` run whose delegate call fails:
the error propagates unchanged, the state is untouched, and no save is
recorded. -/
theorem analyzeNews_predict_error_state {σ : Type} (repo : RepoOps σ)
    (eff : Effects) (req : AnalysisRequest) (st : σ) (tc : Str) (e : GoError)
    (hv : req.Validate = none)
    (htc : req.type = "text".data ∧ tc = req.content ∨
           req.type = "url".data ∧ eff.scrape req.content = .ok tc)
    (hpe : eff.predict tc = .error e) :
    AnalyzeNews repo eff req st =
      ((.error e, st),
       (if req.type = "text".data then [] else [.scrapeCall req.content]) ++
         [.predictCall tc]) := by
  rcases htc with ⟨ht, htc⟩ | ⟨ht, hs⟩
  · subst htc
    simp [AnalyzeNews, hv, ht, analyzeTail, hpe]
  · have hne : req.type ≠ "text".data := by rw [ht]; decide
    simp [AnalyzeNews, hv, ht, hne, hs, analyzeTail, hpe]

/-! ## Whitespace-normalization lemmas for the basic extractor -/

/-- Every character the tag-stripping loop emits is either the space it
writes for `<`, or an input character that is neither `<` nor `>`. -/
theorem mem_stripTags (h : Str) (b : Bool) (c : Char)
    (hc : c ∈ stripTags h b) :
    c = ' ' ∨ (c ∈ h ∧ c ≠ '<' ∧ c ≠ '>') := by
  induction h generalizing b with
  | nil => simp [stripTags] at hc
  | cons a rest ih =>
    by_cases h1 : a = '<'
    · subst h1
      simp only [stripTags, if_pos rfl] at hc
      rcases List.mem_cons.mp hc with hc | hc
      · exact Or.inl hc
      · rcases ih true hc with h | ⟨hm, hne⟩
        · exact Or.inl h
        · exact Or.inr ⟨List.mem_cons_of_mem _ hm, hne⟩
    · by_cases h2 : a = '>'
      · subst h2
        simp only [stripTags, if_neg h1, if_pos rfl] at hc
        rcases ih false hc with h | ⟨hm, hne⟩
        · exact Or.inl h
        · exact Or.inr ⟨List.mem_cons_of_mem _ hm, hne⟩
      · cases b with
        | true =>
          simp only [stripTags, if_neg h1, if_neg h2, if_pos rfl] at hc
          rcases ih true hc with h | ⟨hm, hne⟩
          · exact Or.inl h
          · exact Or.inr ⟨List.mem_cons_of_mem _ hm, hne⟩
        | false =>
          simp only [stripTags, if_neg h1, if_neg h2] at hc
          rcases List.mem_cons.mp hc with rfl | hc
          · exact Or.inr ⟨List.mem_cons_self _ _, h1, h2⟩
          · rcases ih false hc with h | ⟨hm, hne⟩
            · exact Or.inl h
            · exact Or.inr ⟨List.mem_cons_of_mem _ hm, hne⟩

/-- Every field the splitter produces is nonempty and free of whitespace
characters, provided the accumulator already is. -/
theorem fieldsAux_fields_ok (s : Str) :
    ∀ acc, (∀ c ∈ acc, goIsSpace c = false) →
      ∀ f ∈ fieldsAux s acc, f ≠ [] ∧ ∀ c ∈ f, goIsSpace c = false := by
  induction s with
  | nil =>
    intro acc hacc f hf
    by_cases h : acc = []
    · simp [fieldsAux, h] at hf
    · simp only [fieldsAux, if_neg h, List.mem_singleton] at hf
      subst hf
      refine ⟨by simpa using h, fun c hc => hacc c (List.mem_reverse.mp hc)⟩
  | cons a rest ih =>
    intro acc hacc f hf
    by_cases hsp : goIsSpace a = true
    · by_cases h : acc = []
      · simp only [fieldsAux, if_pos hsp, if_pos h] at hf
        exact ih [] (by simp) f hf
      · simp only [fieldsAux, if_pos hsp, if_neg h, List.mem_cons] at hf
        rcases hf with hf | hf
        · subst hf
          exact ⟨by simpa using h, fun c hc => hacc c (List.mem_reverse.mp hc)⟩
        · exact ih [] (by simp) f hf
    · have hacc' : ∀ c ∈ a :: acc, goIsSpace c = false := by
        intro c hc
        rcases List.mem_cons.mp hc with rfl | hc
        · simpa using hsp
        · exact hacc c hc
      simp only [fieldsAux, if_neg hsp] at hf
      exact ih (a :: acc) hacc' f hf

/-- Every character inside a produced field came from the input or the
accumulator. -/
theorem fieldsAux_subset (s : Str) :
    ∀ acc f c, f ∈ fieldsAux s acc → c ∈ f → c ∈ s ∨ c ∈ acc := by
  induction s with
  | nil =>
    intro acc f c hf hc
    by_cases h : acc = []
    · simp [fieldsAux, h] at hf
    · simp only [fieldsAux, if_neg h, List.mem_singleton] at hf
      subst hf
      exact Or.inr (List.mem_reverse.mp hc)
  | cons a rest ih =>
    intro acc f c hf hc
    by_cases hsp : goIsSpace a = true
    · by_cases h : acc = []
      · simp only [fieldsAux, if_pos hsp, if_pos h] at hf
        rcases ih [] f c hf hc with h1 | h1
        · exact Or.inl (List.mem_cons_of_mem _ h1)
        · simp at h1
      · simp only [fieldsAux, if_pos hsp, if_neg h, List.mem_cons] at hf
        rcases hf with hf | hf
        · subst hf
          exact Or.inr (List.mem_reverse.mp hc)
        · rcases ih [] f c hf hc with h1 | h1
          · exact Or.inl (List.mem_cons_of_mem _ h1)
          · simp at h1
    · simp only [fieldsAux, if_neg hsp] at hf
      rcases ih (a :: acc) f c hf hc with h1 | h1
      · exact Or.inl (List.mem_cons_of_mem _ h1)
      · rcases List.mem_cons.mp h1 with rfl | h1
        · exact Or.inl (List.mem_cons_self _ _)
        · exact Or.inr h1

/-- Every character of the joined string is the separating space or comes
from one of the fields. -/
theorem mem_joinSpace (l : List Str) (c : Char) (hc : c ∈ joinSpace l) :
    c = ' ' ∨ ∃ f ∈ l, c ∈ f := by
  induction l with
  | nil => simp [joinSpace] at hc
  | cons f rest ih =>
    cases rest with
    | nil =>
      simp only [joinSpace] at hc
      exact Or.inr ⟨f, by simp, hc⟩
    | cons g rest' =>
      simp only [joinSpace] at hc
      rcases List.mem_append.mp hc with h | h
      · exact Or.inr ⟨f, by simp, h⟩
      · rcases List.mem_cons.mp h with rfl | h
        · exact Or.inl rfl
        · rcases ih h with h1 | ⟨f', hf', hc'⟩
          · exact Or.inl h1
          · exact Or.inr ⟨f', List.mem_cons_of_mem _ hf', hc'⟩

/-- Prepending a non-whitespace character preserves the no-adjacent-
whitespace property. -/
theorem adjacentOk_cons (a : Char) (t : Str) (ha : goIsSpace a = false)
    (ht : adjacentOk t = true) : adjacentOk (a :: t) = true := by
  cases t with
  | nil => rfl
  | cons b r => simpa [adjacentOk, ha] using ht

/-- A string without whitespace has no adjacent whitespace pair. -/
theorem adjacentOk_of_nonspace (f : Str)
    (h : ∀ c ∈ f, goIsSpace c = false) : adjacentOk f = true := by
  induction f with
  | nil => rfl
  | cons a t ih =>
    exact adjacentOk_cons a t (h a (by simp))
      (ih fun c hc => h c (List.mem_cons_of_mem _ hc))

/-- Joining a whitespace-free string, a single space, and a string that
neither starts with whitespace nor has an adjacent whitespace pair keeps
the no-adjacent-whitespace property. -/
theorem adjacentOk_sep (f J : Str)
    (hf : ∀ c ∈ f, goIsSpace c = false)
    (hJh : headNotSpace J = true) (hJ : adjacentOk J = true) :
    adjacentOk (f ++ ' ' :: J) = true := by
  induction f with
  | nil =>
    cases J with
    | nil => rfl
    | cons j t =>
      have hj : goIsSpace j = false := by simpa [headNotSpace] using hJh
      simpa [adjacentOk, hj] using hJ
  | cons a f' ih =>
    have ha : goIsSpace a = false := hf a (by simp)
    exact adjacentOk_cons a (f' ++ ' ' :: J) ha
      (ih fun c hc => hf c (List.mem_cons_of_mem _ hc))

/-- A nonempty string keeps its non-whitespace head across an append. -/
theorem headNotSpace_append (x y : Str) (hx : x ≠ [])
    (h : headNotSpace x = true) : headNotSpace (x ++ y) = true := by
  cases x with
  | nil => exact absurd rfl hx
  | cons a t => simpa [headNotSpace] using h

/-- A whitespace-free string does not start with whitespace. -/
theorem headNotSpace_of_nonspace (f : Str)
    (h : ∀ c ∈ f, goIsSpace c = false) : headNotSpace f = true := by
  cases f with
  | nil => rfl
  | cons a t => simp [headNotSpace, h a (by simp)]

/-- A whitespace-free string does not end with whitespace. -/
theorem lastNotSpace_of_nonspace (f : Str)
    (h : ∀ c ∈ f, goIsSpace c = false) : lastNotSpace f = true :=
  headNotSpace_of_nonspace f.reverse fun c hc => h c (List.mem_reverse.mp hc)

/-- Appending a separator and a nonempty string that does not end in
whitespace gives a string that does not end in whitespace. -/
theorem lastNotSpace_sep (f J : Str) (hJne : J ≠ [])
    (hJ : lastNotSpace J = true) : lastNotSpace (f ++ ' ' :: J) = true := by
  unfold lastNotSpace at hJ ⊢
  rw [List.reverse_append, List.reverse_cons, List.append_assoc]
  have hrev : J.reverse ≠ [] := by simpa using hJne
  exact headNotSpace_append _ _ hrev hJ

/-- Joining starting from a nonempty field yields a nonempty string. -/
theorem joinSpace_ne_nil (g : Str) (rest : List Str) (hg : g ≠ []) :
    joinSpace (g :: rest) ≠ [] := by
  cases rest with
  | nil => simpa [joinSpace] using hg
  | cons h t => simp [joinSpace]

/-- Joining nonempty, whitespace-free fields with single spaces yields a
string with non-whitespace ends and no adjacent whitespace pair. -/
theorem joinSpace_clean (l : List Str)
    (h : ∀ f ∈ l, f ≠ [] ∧ ∀ c ∈ f, goIsSpace c = false) :
    headNotSpace (joinSpace l) = true ∧
    lastNotSpace (joinSpace l) = true ∧
    adjacentOk (joinSpace l) = true := by
  induction l with
  | nil => exact ⟨rfl, rfl, rfl⟩
  | cons f rest ih =>
    obtain ⟨hfne, hfns⟩ := h f (by simp)
    cases rest with
    | nil =>
      exact ⟨headNotSpace_of_nonspace f hfns,
             lastNotSpace_of_nonspace f hfns,
             adjacentOk_of_nonspace f hfns⟩
    | cons g rest' =>
      obtain ⟨hgne, _⟩ := h g (by simp)
      obtain ⟨ihh, ihl, iha⟩ :=
        ih fun f' hf' => h f' (List.mem_cons_of_mem _ hf')
      have hJne := joinSpace_ne_nil g rest' hgne
      refine ⟨?_, ?_, ?_⟩
      · exact headNotSpace_append f _ hfne (headNotSpace_of_nonspace f hfns)
      · exact lastNotSpace_sep f _ hJne ihl
      · exact adjacentOk_sep f _ hfns ihh iha

/-- Dropping leading whitespace from a string that does not start with
whitespace changes nothing. -/
theorem dropWhile_eq_self_of_head (s : Str) (h : headNotSpace s = true) :
    s.dropWhile goIsSpace = s := by
  cases s with
  | nil => rfl
  | cons a t =>
    have ha : goIsSpace a = false := by simpa [headNotSpace] using h
    simp [List.dropWhile_cons, ha]

/-- Trimming a string already free of leading and trailing whitespace
changes nothing. -/
theorem trimSpaceGo_eq_self (s : Str) (h1 : headNotSpace s = true)
    (h2 : lastNotSpace s = true) : trimSpaceGo s = s := by
  unfold trimSpaceGo
  rw [dropWhile_eq_self_of_head s h1,
      dropWhile_eq_self_of_head s.reverse h2, List.reverse_reverse]

/-- The normalization tail of the basic extractor (fields, join, trim)
yields a string with no angle brackets (given the stripped input), no
leading or trailing whitespace, and no adjacent whitespace pair. -/
theorem postStrip_normalized (u : Str) :
    '<' ∉ trimSpaceGo (joinSpace (fieldsGo (stripTags u false))) ∧
    '>' ∉ trimSpaceGo (joinSpace (fieldsGo (stripTags u false))) ∧
    headNotSpace (trimSpaceGo (joinSpace (fieldsGo (stripTags u false)))) = true ∧
    lastNotSpace (trimSpaceGo (joinSpace (fieldsGo (stripTags u false)))) = true ∧
    adjacentOk (trimSpaceGo (joinSpace (fieldsGo (stripTags u false)))) = true := by
  have hfields : ∀ f ∈ fieldsGo (stripTags u false),
      f ≠ [] ∧ ∀ c ∈ f, goIsSpace c = false :=
    fieldsAux_fields_ok (stripTags u false) [] (by simp)
  obtain ⟨hh, hl, ha⟩ := joinSpace_clean _ hfields
  have htrim : trimSpaceGo (joinSpace (fieldsGo (stripTags u false))) =
      joinSpace (fieldsGo (stripTags u false)) :=
    trimSpaceGo_eq_self _ hh hl
  rw [htrim]
  refine ⟨?_, ?_, hh, hl, ha⟩
  · intro hmem
    rcases mem_joinSpace _ _ hmem with h | ⟨f, hf, hcf⟩
    · exact absurd h (by decide)
    · rcases fieldsAux_subset (stripTags u false) [] f '<' hf hcf with h | h
      · rcases mem_stripTags u false '<' h with h1 | ⟨_, h2, _⟩
        · exact absurd h1 (by decide)
        · exact h2 rfl
      · simp at h
  · intro hmem
    rcases mem_joinSpace _ _ hmem with h | ⟨f, hf, hcf⟩
    · exact absurd h (by decide)
    · rcases fieldsAux_subset (stripTags u false) [] f '>' hf hcf with h | h
      · rcases mem_stripTags u false '>' h with h1 | ⟨_, _, h2⟩
        · exact absurd h1 (by decide)
        · exact h2 rfl
      · simp at h

/-! ## Claim theorems -/

/-- C1: contrary to the claim, when the delegate answers HTTP 200 with a
body that does not decode as the expected JSON shape, `MLClient.Predict`
does not return a PredictionFailed error: the `json.Unmarshal` error is
discarded and the call succeeds with zero-valued result fields (empty
result string, confidence 0, empty model version). -/
theorem predict_parse_failure_zero_fields
    (doPost : Str → Except Str HttpResponse)
    (decode : Str → Option MLPredictionResponse) (elapsedMs : Int)
    (now : Nat) (text : Str) (resp : HttpResponse)
    (hpost : doPost text = .ok resp) (h200 : resp.statusCode = 200)
    (hbad : decode resp.body = none) :
    MLClient.Predict doPost decode elapsedMs now text =
      .ok { id := [], articleId := [], requestType := [],
            originalContent := [], result := [], confidence := 0,
            modelVersion := [], processingTime := elapsedMs,
            createdAt := now } := by
  simp [MLClient.Predict, hpost, h200, hbad, zeroMLResponse]

/-- Witness for C1 at a concrete 200 response with an unparsable body. -/
theorem predict_parse_failure_zero_fields_witness :
    MLClient.Predict doPostBad decodeNone 5 0 "X".data =
      .ok { id := [], articleId := [], requestType := [],
            originalContent := [], result := [], confidence := 0,
            modelVersion := [], processingTime := 5, createdAt := 0 } :=
  predict_parse_failure_zero_fields doPostBad decodeNone 5 0 "X".data
    ⟨200, "if only this were JSON".data⟩ rfl rfl rfl

/-- C2: when validation, content resolution and prediction all succeed,
`AnalyzeNews` returns the enriched prediction with a nil error no matter
what the repository's save returns: two runs against arbitrary
repositories (in particular one whose save fails and one whose save
succeeds) return the identical prediction. -/
theorem analyzeNews_save_failure_swallowed {σ₁ σ₂ : Type}
    (r1 : RepoOps σ₁) (r2 : RepoOps σ₂) (eff : Effects)
    (req : AnalysisRequest) (st1 : σ₁) (st2 : σ₂) (tc : Str)
    (p0 : Prediction)
    (hv : req.Validate = none)
    (htc : req.type = "text".data ∧ tc = req.content ∨
           req.type = "url".data ∧ eff.scrape req.content = .ok tc)
    (hp : eff.predict tc = .ok p0) :
    (AnalyzeNews r1 eff req st1).1.1 = .ok (enrich eff req p0) ∧
    (AnalyzeNews r2 eff req st2).1.1 = .ok (enrich eff req p0) := by
  constructor
  · rw [analyzeNews_success_state r1 eff req st1 tc p0 hv htc hp]
  · rw [analyzeNews_success_state r2 eff req st2 tc p0 hv htc hp]

/-- Witness for C2: a repository whose save always fails versus the
in-memory repository; both runs return the same enriched prediction. -/
theorem analyzeNews_save_failure_swallowed_witness :
    (AnalyzeNews failingRepo effGood reqText ()).1.1 =
      .ok (enrich effGood reqText basePrediction) ∧
    (AnalyzeNews memRepo effGood reqText []).1.1 =
      .ok (enrich effGood reqText basePrediction) :=
  analyzeNews_save_failure_swallowed failingRepo memRepo effGood reqText
    () [] reqText.content basePrediction (by decide)
    (Or.inl ⟨rfl, rfl⟩) rfl

/-- C3: a request with an unknown type or empty content makes
`AnalyzeNews` fail validation with `ErrInvalidRequestType` or
`ErrEmptyContent`, with the repository state unchanged and an empty call
trace (no scrape, no predict, no save), for every scraper, delegate and
repository. -/
theorem analyzeNews_invalid_no_io {σ : Type} (repo : RepoOps σ)
    (eff : Effects) (req : AnalysisRequest) (st : σ)
    (h : (req.type ≠ "text".data ∧ req.type ≠ "url".data) ∨
         req.content = []) :
    ∃ e, AnalyzeNews repo eff req st = ((.error e, st), []) ∧
      (e = GoError.invalidRequestType ∨ e = GoError.emptyContent) := by
  by_cases hty : req.type ≠ "text".data ∧ req.type ≠ "url".data
  · exact ⟨.invalidRequestType,
      by simp [AnalyzeNews, AnalysisRequest.Validate, hty], Or.inl rfl⟩
  · rcases h with h | hc
    · exact absurd h hty
    · exact ⟨.emptyContent,
        by simp [AnalyzeNews, AnalysisRequest.Validate, hty, hc],
        Or.inr rfl⟩

/-- Witness for C3 at a concrete request with an unknown type. -/
theorem analyzeNews_invalid_no_io_witness :
    ∃ e, AnalyzeNews memRepo effGood ⟨"xml".data, "hi".data⟩ [] =
        ((.error e, []), []) ∧
      (e = GoError.invalidRequestType ∨ e = GoError.emptyContent) :=
  analyzeNews_invalid_no_io memRepo effGood ⟨"xml".data, "hi".data⟩ []
    (Or.inl (by decide))

/-- C4: after a successful `AnalyzeNews` against the in-memory repository
(the fresh id being non-empty, as a generated UUID is), looking the
returned prediction's id up in the resulting store returns a prediction
equal to the returned one in all fields. -/
theorem analyzeNews_get_round_trip (eff : Effects) (req : AnalysisRequest)
    (st : PredMap) (tc : Str) (p0 : Prediction)
    (hv : req.Validate = none)
    (htc : req.type = "text".data ∧ tc = req.content ∨
           req.type = "url".data ∧ eff.scrape req.content = .ok tc)
    (hp : eff.predict tc = .ok p0) (hid : eff.freshId ≠ []) :
    (AnalyzeNews memRepo eff req st).1.1 = .ok (enrich eff req p0) ∧
    NewsService.GetPrediction memRepo (enrich eff req p0).id
        (AnalyzeNews memRepo eff req st).1.2 =
      .ok (enrich eff req p0) := by
  rw [analyzeNews_success_state memRepo eff req st tc p0 hv htc hp]
  refine ⟨rfl, ?_⟩
  have hpid : (enrich eff req p0).id = eff.freshId := rfl
  simp [NewsService.GetPrediction, memRepo, SavePrediction, hpid, hid,
        GetPredictionByID, mapLookup_mapInsert_self]

/-- Witness for C4 at a concrete successful run. -/
theorem analyzeNews_get_round_trip_witness :
    (AnalyzeNews memRepo effGood reqText []).1.1 =
      .ok (enrich effGood reqText basePrediction) ∧
    NewsService.GetPrediction memRepo (enrich effGood reqText basePrediction).id
        (AnalyzeNews memRepo effGood reqText []).1.2 =
      .ok (enrich effGood reqText basePrediction) :=
  analyzeNews_get_round_trip effGood reqText [] reqText.content
    basePrediction (by decide) (Or.inl ⟨rfl, rfl⟩) rfl (by decide)

/-- C5: when the delegate answers the POST with a non-200 status,
`AnalyzeNews` fails with `ErrPredictionFailed` carrying that status code,
the store state is unchanged, and the trace contains no save call. -/
theorem analyzeNews_non200_no_save
    (doPost : Str → Except Str HttpResponse)
    (decode : Str → Option MLPredictionResponse) (elapsedMs : Int)
    (nowPredict : Nat) (scrape : Str → Except GoError Str)
    (freshId : Str) (nowEnrich : Nat) (req : AnalysisRequest)
    (st : PredMap) (tc : Str) (resp : HttpResponse)
    (hv : req.Validate = none)
    (htc : req.type = "text".data ∧ tc = req.content ∨
           req.type = "url".data ∧ scrape req.content = .ok tc)
    (hresp : doPost tc = .ok resp) (hstatus : resp.statusCode ≠ 200) :
    AnalyzeNews memRepo
        { scrape := scrape,
          predict := MLClient.Predict doPost decode elapsedMs nowPredict,
          freshId := freshId, now := nowEnrich } req st =
      ((.error (.predictionFailed resp.statusCode), st),
       (if req.type = "text".data then [] else [.scrapeCall req.content]) ++
         [.predictCall tc]) ∧
    ∀ p : Prediction,
      CallEvent.saveCall p ∉
        (AnalyzeNews memRepo
          { scrape := scrape,
            predict := MLClient.Predict doPost decode elapsedMs nowPredict,
            freshId := freshId, now := nowEnrich } req st).2 := by
  have hpe : MLClient.Predict doPost decode elapsedMs nowPredict tc =
      .error (.predictionFailed resp.statusCode) := by
    simp [MLClient.Predict, hresp, hstatus]
  have hrun := analyzeNews_predict_error_state memRepo
    { scrape := scrape,
      predict := MLClient.Predict doPost decode elapsedMs nowPredict,
      freshId := freshId, now := nowEnrich } req st tc
    (.predictionFailed resp.statusCode) hv htc hpe
  refine ⟨hrun, ?_⟩
  intro p
  rw [hrun]
  by_cases ht : req.type = "text".data <;> simp [ht]

/-- Witness for C5 at a delegate answering HTTP 500. -/
theorem analyzeNews_non200_no_save_witness :
    AnalyzeNews memRepo
        { scrape := scrapeFail,
          predict := MLClient.Predict doPost500 decodeGood 5 0,
          freshId := "id-1".data, now := 7 } reqText [] =
      ((.error (.predictionFailed 500), []),
       (if reqText.type = "text".data then []
        else [.scrapeCall reqText.content]) ++
         [.predictCall reqText.content]) ∧
    ∀ p : Prediction,
      CallEvent.saveCall p ∉
        (AnalyzeNews memRepo
          { scrape := scrapeFail,
            predict := MLClient.Predict doPost500 decodeGood 5 0,
            freshId := "id-1".data, now := 7 } reqText []).2 :=
  analyzeNews_non200_no_save doPost500 decodeGood 5 0 scrapeFail
    "id-1".data 7 reqText [] reqText.content ⟨500, "internal error".data⟩
    (by decide) (Or.inl ⟨rfl, rfl⟩) rfl (by decide)

/-- C8: `SavePrediction` fails with the empty-id error exactly when the
id is empty, leaving the store untouched; with a non-empty id it upserts,
and a lookup of that id afterwards returns the saved prediction whatever
the store previously held under it (last write wins). -/
theorem savePrediction_empty_id_iff_upsert (p : Prediction) (st : PredMap) :
    SavePrediction p st =
      (if p.id = [] then (.error .predictionIdEmpty, st)
       else (.ok (), mapInsert p.id p st)) ∧
    ((SavePrediction p st).1 = .error .predictionIdEmpty ↔ p.id = []) ∧
    GetPredictionByID p.id (mapInsert p.id p st) = .ok p := by
  refine ⟨rfl, ?_, ?_⟩
  · by_cases h : p.id = [] <;> simp [SavePrediction, h]
  · simp [GetPredictionByID, mapLookup_mapInsert_self]

/-- C9: validation checks the request type before content emptiness, so a
request that is invalid in both ways yields `ErrInvalidRequestType`, not
`ErrEmptyContent`, from `Validate` and hence from `AnalyzeNews`. -/
theorem validate_checks_type_before_content {σ : Type} (repo : RepoOps σ)
    (eff : Effects) (st : σ) (t : Str)
    (h1 : t ≠ "text".data) (h2 : t ≠ "url".data) :
    AnalysisRequest.Validate ⟨t, []⟩ = some .invalidRequestType ∧
    (AnalyzeNews repo eff ⟨t, []⟩ st).1.1 = .error .invalidRequestType := by
  have hv : AnalysisRequest.Validate ⟨t, []⟩ = some .invalidRequestType := by
    simp [AnalysisRequest.Validate, h1, h2]
  exact ⟨hv, by simp [AnalyzeNews, hv]⟩

/-- Witness for C9 at a request with unknown type and empty content. -/
theorem validate_checks_type_before_content_witness :
    AnalysisRequest.Validate ⟨"json".data, []⟩ =
      some .invalidRequestType ∧
    (AnalyzeNews memRepo effGood ⟨"json".data, []⟩ []).1.1 =
      .error .invalidRequestType :=
  validate_checks_type_before_content memRepo effGood [] "json".data
    (by decide) (by decide)

/-- C6 counterexample: on the claim's document the basic extractor
`extractTextFromHTML` keeps the nav boilerplate — only script and style
elements are dropped with their content, every other tag is merely
stripped — so its output contains the nav text, refuting the claim for
that extractor. -/
theorem extractTextFromHTML_keeps_nav_text :
    extractTextFromHTML c6html =
      "Hello world, this is content. Home About Contact".data ∧
    containsSub c6navText (extractTextFromHTML c6html) = true ∧
    containsSub c6articleText (extractTextFromHTML c6html) = true := by
  refine ⟨by decide, by decide, by decide⟩

/-- C6 amended: the goquery-based extractor
`extractContentWithGoquery` removes the nav element before extraction, so
on the same document its output is exactly the article paragraph text —
the nav text is excluded — while the basic extractor only guarantees the
article text is included (its output retains the nav text). -/
theorem extractContentWithGoquery_strips_nav :
    extractContentWithGoquery c6doc = c6articleText ∧
    containsSub c6navText (extractContentWithGoquery c6doc) = false ∧
    containsSub c6articleText (extractTextFromHTML c6html) = true := by
  refine ⟨by decide, by decide, by decide⟩

/-- C7 amended: for a valid URL whose fetch succeeds, `ScrapeURL` fails
with the scraping error carrying the status code for every status other
than exactly 200, and proceeds to content extraction exactly when the
status is 200 (failing further only when the extraction is empty). -/
theorem scrapeURL_status_behavior (parse : Str → Option UrlParts)
    (fetch : Str → Except Str HttpResponse) (urlStr : Str)
    (resp : HttpResponse)
    (hvalid : isValidURL parse urlStr = true)
    (hfetch : fetch urlStr = .ok resp) :
    (resp.statusCode ≠ 200 →
      ScrapeURL parse fetch urlStr =
        .error (.scrapeStatus resp.statusCode)) ∧
    (resp.statusCode = 200 →
      ScrapeURL parse fetch urlStr =
        (if extractTextFromHTML resp.body = [] then
           .error .scrapeNoContent
         else .ok (extractTextFromHTML resp.body))) := by
  constructor
  · intro hne
    simp [ScrapeURL, hvalid, hfetch, hne]
  · intro h200
    simp [ScrapeURL, hvalid, hfetch, h200]

/-- Witness for the amended C7 at a concrete valid URL fetched with
HTTP 200. -/
theorem scrapeURL_status_behavior_witness :
    ((200 : Nat) ≠ 200 →
      ScrapeURL parse0 fetch200 "http://example.com".data =
        .error (.scrapeStatus 200)) ∧
    ((200 : Nat) = 200 →
      ScrapeURL parse0 fetch200 "http://example.com".data =
        (if extractTextFromHTML body0 = [] then
           .error .scrapeNoContent
         else .ok (extractTextFromHTML body0))) :=
  scrapeURL_status_behavior parse0 fetch200 "http://example.com".data
    ⟨200, body0⟩ (by decide) rfl

/-- C7 counterexample: HTTP 201 is in the 2xx success class, yet
`ScrapeURL` fails on it with the status-code error instead of proceeding
to extraction — the body would have extracted nonempty content. -/
theorem scrapeURL_fails_on_201 :
    ScrapeURL parse0 fetch201 "http://example.com".data =
      .error (.scrapeStatus 201) ∧
    extractTextFromHTML body0 ≠ [] := by
  refine ⟨rfl, by decide⟩

/-- C10: for every input string, the basic extractor's output contains
no angle-bracket character, has no leading or trailing whitespace, and
contains no two adjacent whitespace characters (whitespace in the sense
of Go's `unicode.IsSpace`). -/
theorem extractTextFromHTML_normalized (html : Str) :
    '<' ∉ extractTextFromHTML html ∧
    '>' ∉ extractTextFromHTML html ∧
    headNotSpace (extractTextFromHTML html) = true ∧
    lastNotSpace (extractTextFromHTML html) = true ∧
    adjacentOk (extractTextFromHTML html) = true := by
  simp only [extractTextFromHTML]
  exact postStrip_normalized
    (removeTagsWithContent (removeTagsWithContent html "script".data)
      "style".data)

end FYP
